import Mathlib

/-!
Verification of the skill-extraction-and-matching core of the
ATS-resume backend (`backend/utils/skill_matcher.py`).

The Python module is shallowly embedded: the static catalog
`SKILLS_DATABASE` is transcribed literally; `re.search` of the patterns
`r'\b' + re.escape(lit) + r'\b'` that `extract_skills` builds is modelled
by an explicit word-boundary matcher over character lists; floats are
modelled by rationals; Python string order is modelled by code-point
lexicographic comparison. The ASCII fragment of Python `\w`, `\s`,
`str.lower()` is modelled (matching `Char.toLower`).
-/

set_option maxRecDepth 20000

namespace ATSResume

/-- Python regex `\w` word character (ASCII fragment: `[a-zA-Z0-9_]`). -/
def isWordChar (c : Char) : Bool := c.isAlphanum || c = '_'

/-- Python regex `\s` whitespace character (ASCII fragment). -/
def isPySpace (c : Char) : Bool :=
  c = ' ' || c = '\t' || c = '\n' || c = '\r' || c = '\x0b' || c = '\x0c'

/-- Characters kept unchanged by the normalization step
`re.sub(r'[^\w\s.\-+#]', ' ', text_lower)` of `extract_skills`. -/
def keepChar (c : Char) : Bool :=
  isWordChar c || isPySpace c || c = '.' || c = '-' || c = '+' || c = '#'

/-- The normalization step of `extract_skills`: every character outside
`[\w\s.\-+#]` is replaced by a space. -/
def normalizeChars (cs : List Char) : List Char :=
  cs.map fun c => if keepChar c then c else ' '

/-- Python `str.lower()` (ASCII fragment, matching `Char.toLower`). -/
def pyLower (s : String) : String := ⟨s.data.map Char.toLower⟩

/-- Whether position `i` of `cs` is just after a word character: `false` at
the left edge, otherwise the wordness of `cs[i-1]`. -/
def prevWordAt (cs : List Char) : Nat → Bool
  | 0 => false
  | i + 1 =>
    match cs[i]? with
    | some c => isWordChar c
    | none => false

/-- Wordness of the character at position `i` of `cs` (`false` past the
end). -/
def wordAt (cs : List Char) (i : Nat) : Bool :=
  match cs[i]? with
  | some c => isWordChar c
  | none => false

/-- Python regex `\b` (word boundary) holds at position `i` of `cs` iff the
wordness of the character before `i` differs from the wordness of the
character at `i`. -/
def boundaryAt (cs : List Char) (i : Nat) : Bool :=
  prevWordAt cs i != wordAt cs i

/-- The pattern `\b` ++ (escaped literal `lit`) ++ `\b` matches `cs` at
position `i`. -/
def matchAtWB (lit cs : List Char) (i : Nat) : Bool :=
  boundaryAt cs i && ((cs.drop i).take lit.length == lit) && boundaryAt cs (i + lit.length)

/-- `re.search(r'\b' + re.escape(lit) + r'\b', cs)` succeeds: the pattern
matches at some position of `cs`. -/
def searchWB (lit cs : List Char) : Bool :=
  (List.range (cs.length + 1)).any fun i => matchAtWB lit cs i

/-- Decidable statement that `lit` occurs somewhere in `cs` with no word
character immediately before or after the occurrence. -/
def wbOccursClean (lit cs : List Char) : Bool :=
  (List.range (cs.length + 1)).any fun i =>
    ((cs.drop i).take lit.length == lit) && !prevWordAt cs i && !wordAt cs (i + lit.length)

/-- Code-point lexicographic comparison of character lists, the order Python
uses to compare strings. -/
def listLe : List Char → List Char → Bool
  | [], _ => true
  | _ :: _, [] => false
  | a :: as, b :: bs => if a = b then listLe as bs else decide (a < b)

/-- Code-point lexicographic `<=` on strings, as used by Python `sorted`. -/
def strLe (a b : String) : Bool := listLe a.data b.data

/-- Python `sorted` on a collection of strings. -/
def pySort (l : List String) : List String :=
  List.insertionSort (fun a b => strLe a b = true) l

/-- The static skill catalog `SKILLS_DATABASE`, transcribed entry by entry
(in source order, duplicates included) from `backend/utils/skill_matcher.py`. -/
def SKILLS_DATABASE : List String := [
  "Python", "JavaScript", "Java", "C++", "C#", "TypeScript", "Ruby", "PHP",
  "Swift", "Kotlin", "Go", "Rust", "Scala", "R", "MATLAB", "Perl",
  "Objective-C", "Dart", "Groovy", "Elixir", "Haskell", "Lua", "C",
  "React", "React.js", "Angular", "Vue.js", "Vue", "Svelte", "jQuery",
  "HTML", "HTML5", "CSS", "CSS3", "SASS", "SCSS", "Less", "Bootstrap",
  "Tailwind CSS", "Material UI", "Chakra UI", "Next.js", "Nuxt.js", "Gatsby",
  "Webpack", "Vite", "Babel", "Redux", "MobX", "Zustand",
  "Node.js", "Express.js", "Express", "Django", "Flask", "FastAPI",
  "Spring Boot", "Spring", "ASP.NET", ".NET", "Laravel", "Ruby on Rails",
  "Rails", "Symfony", "NestJS", "Fastify", "Koa", "Hapi",
  "PostgreSQL", "MySQL", "SQL Server", "Oracle", "MariaDB", "SQLite",
  "SQL", "T-SQL", "PL/SQL",
  "MongoDB", "Redis", "Cassandra", "DynamoDB", "Couchbase", "Neo4j",
  "Firebase", "Firestore", "Elasticsearch", "CouchDB",
  "AWS", "Amazon Web Services", "Azure", "Microsoft Azure", "Google Cloud",
  "GCP", "Google Cloud Platform", "DigitalOcean", "Heroku", "Vercel", "Netlify",
  "Oracle Cloud", "IBM Cloud", "Alibaba Cloud",
  "EC2", "S3", "Lambda", "RDS", "DynamoDB", "CloudFront", "Route 53",
  "ECS", "EKS", "Elastic Beanstalk", "CloudWatch", "SNS", "SQS",
  "Docker", "Kubernetes", "Jenkins", "GitLab CI", "GitHub Actions",
  "CircleCI", "Travis CI", "Terraform", "Ansible", "Chef", "Puppet",
  "Vagrant", "CI/CD", "Continuous Integration", "Continuous Deployment",
  "Git", "GitHub", "GitLab", "Bitbucket", "SVN", "Mercurial",
  "Jest", "Mocha", "Chai", "Pytest", "JUnit", "TestNG", "Selenium",
  "Cypress", "Playwright", "Puppeteer", "JMeter", "Postman", "Insomnia",
  "REST API", "RESTful", "GraphQL", "gRPC", "WebSocket", "Microservices",
  "Monolithic", "API Gateway", "Swagger", "OpenAPI", "SOAP",
  "Android", "iOS", "React Native", "Flutter", "Xamarin", "Ionic",
  "Swift UI", "Jetpack Compose", "Cordova",
  "Machine Learning", "Deep Learning", "TensorFlow", "PyTorch", "Keras",
  "Scikit-learn", "Pandas", "NumPy", "SciPy", "Matplotlib", "Seaborn",
  "Data Analysis", "Data Science", "NLP", "Natural Language Processing",
  "Computer Vision", "OpenCV", "NLTK", "spaCy", "Hugging Face",
  "Apache Spark", "Hadoop", "Kafka", "Airflow", "Databricks", "Snowflake",
  "BigQuery", "Redshift", "ETL", "Data Pipeline", "Data Warehouse",
  "Jira", "Confluence", "Trello", "Asana", "Monday.com", "Notion",
  "ClickUp", "Linear", "Basecamp",
  "Agile", "Scrum", "Kanban", "Waterfall", "DevOps", "TDD",
  "Test-Driven Development", "BDD", "Behavior-Driven Development",
  "Pair Programming", "Code Review", "Continuous Learning",
  "Leadership", "Communication", "Team Management", "Problem Solving",
  "Critical Thinking", "Time Management", "Project Management",
  "Collaboration", "Mentoring", "Public Speaking", "Technical Writing",
  "Analytical Skills", "Creativity", "Adaptability", "Conflict Resolution",
  "GraphQL", "WebAssembly", "Blockchain", "Solidity", "Ethereum",
  "Smart Contracts", "Web3", "Socket.io", "RabbitMQ", "Nginx",
  "Apache", "Linux", "Unix", "Shell Scripting", "Bash", "PowerShell",
  "Figma", "Adobe XD", "Sketch", "Photoshop", "Illustrator", "InVision",
  "UI Design", "UX Design", "User Research", "Wireframing", "Prototyping",
  "OAuth", "JWT", "Authentication", "Authorization", "Encryption",
  "SSL", "TLS", "Penetration Testing", "Security Audit", "OWASP"]

/-- Lookup in `SKILLS_LOOKUP = {skill.lower(): skill for skill in SKILLS_DATABASE}`:
a Python dict comprehension keeps the last value written per key, so the
value at key `k` is the last catalog entry whose lowercasing is `k`. -/
def SKILLS_LOOKUP_get (k : String) : Option String :=
  (SKILLS_DATABASE.filter fun s => pyLower s == k).getLast?

/-- The per-entry test of the `extract_skills` loop on the normalized text
`tn`: the word-boundary pattern for the lowercased entry and, for entries
containing a `.`, the word-boundary pattern for the part of the entry
before its first `.` (`skill_lower.split('.')[0]`). -/
def skillFound (tn : List Char) (skill : String) : Bool :=
  searchWB (skill.data.map Char.toLower) tn ||
    ((skill.data.map Char.toLower).contains '.' &&
      searchWB ((skill.data.map Char.toLower).takeWhile fun c => c != '.') tn)

/-- `extract_skills` from `backend/utils/skill_matcher.py`: empty input gives
`[]`; otherwise the catalog entries found in the lowercased, normalized text
are collected into a set and returned sorted. -/
def extract_skills (text : String) : List String :=
  if text = "" then []
  else
    pySort ((SKILLS_DATABASE.filter fun skill =>
      skillFound (normalizeChars (text.data.map Char.toLower)) skill).dedup)

/-- `extract_skills` at the Python layer also accepts `None`; `if not text`
returns `[]` for it. -/
def extract_skills_opt : Option String → List String
  | none => []
  | some t => extract_skills t

/-- The set `resume_skills_set = {skill.lower() for skill in resume_skills}`
of `calculate_match`, as a duplicate-free list. -/
def resume_set (resume_skills : List String) : List String :=
  (resume_skills.map pyLower).dedup

/-- The set `jd_skills_set = {skill.lower() for skill in jd_skills}` of
`calculate_match`, as a duplicate-free list. -/
def jd_set (jd_skills : List String) : List String :=
  (jd_skills.map pyLower).dedup

/-- `matched_lower = jd_set.intersection(resume_set)` of `calculate_match`. -/
def matched_lower (resume_skills jd_skills : List String) : List String :=
  (jd_set jd_skills).filter fun k => (resume_set resume_skills).contains k

/-- `missing_lower = jd_set - resume_set` of `calculate_match`. -/
def missing_lower (resume_skills jd_skills : List String) : List String :=
  (jd_set jd_skills).filter fun k => !(resume_set resume_skills).contains k

/-- `jd_skill_map = {skill.lower(): skill for skill in jd_skills}`: the dict
comprehension keeps the last value written per key, so key `k` maps to the
last element of `jd_skills` whose lowercasing is `k` (the default `""` is
never reached for keys that are present). -/
def jd_skill_map (jd_skills : List String) (k : String) : String :=
  ((jd_skills.filter fun s => pyLower s == k).getLast?).getD ""

/-- Python `round(x, 2)`: round to two decimal places (ties are resolved
upward in this model; the spec accepts either tie rule in §4.3). -/
def round2 (q : ℚ) : ℚ := ((⌊q * 100 + 1 / 2⌋ : ℤ) : ℚ) / 100

/-- The dict returned by `calculate_match`. -/
structure MatchResult where
  score : ℚ
  matched_skills : List String
  missing_skills : List String
  total_jd_skills : Nat
  total_matched : Nat
deriving Repr, DecidableEq

/-- `calculate_match` from `backend/utils/skill_matcher.py`. -/
def calculate_match (resume_skills jd_skills : List String) : MatchResult where
  score := round2 (if jd_skills.length = 0 then 0
    else ((matched_lower resume_skills jd_skills).length : ℚ) / (jd_skills.length : ℚ) * 100)
  matched_skills := pySort ((matched_lower resume_skills jd_skills).map (jd_skill_map jd_skills))
  missing_skills := pySort ((missing_lower resume_skills jd_skills).map (jd_skill_map jd_skills))
  total_jd_skills := jd_skills.length
  total_matched :=
    (pySort ((matched_lower resume_skills jd_skills).map (jd_skill_map jd_skills))).length

/-- The `skill_categories` table of `get_skill_suggestions`. -/
def skill_categories : List (String × List String) := [
  ("frontend", ["React", "Angular", "Vue.js", "HTML", "CSS", "JavaScript", "TypeScript"]),
  ("backend", ["Node.js", "Python", "Java", "Django", "Flask", "Spring Boot"]),
  ("database", ["MongoDB", "PostgreSQL", "MySQL", "Redis"]),
  ("cloud", ["AWS", "Azure", "Google Cloud", "Docker", "Kubernetes"])]

/-- `get_skill_suggestions` from `backend/utils/skill_matcher.py`: for each
missing skill, the first category containing it case-insensitively is looked
up; a "Learn ..." line is produced if one exists, a "Consider ..." line
otherwise. -/
def get_skill_suggestions (missing_skills : List String) : List String :=
  missing_skills.map fun skill =>
    match skill_categories.find? (fun p =>
        p.2.any fun s => pyLower skill == pyLower s) with
    | some _ => "Learn " ++ skill ++ " through online courses or projects"
    | none => "Consider gaining experience with " ++ skill

/-- Spec-side predicate for claim C9: the skill is a case-insensitive member
of one of the four fixed categories. -/
def inFixedCategory (skill : String) : Bool :=
  skill_categories.any fun p => p.2.any fun s => pyLower skill == pyLower s

/-- Spec-side per-skill suggestion rule of §4.4: a "Learn ..." line for
skills in a fixed category, a "Consider ..." line otherwise. -/
def suggestionFor (skill : String) : String :=
  if inFixedCategory skill then "Learn " ++ skill ++ " through online courses or projects"
  else "Consider gaining experience with " ++ skill

/-- Spec-side count for claim C5: the number of distinct lowercase jd skills
that are also present in the lowercase resume skill set. -/
def distinctMatchedCount (resume_skills jd_skills : List String) : Nat :=
  (jd_skills.map pyLower).dedup.countP fun k => decide (k ∈ resume_skills.map pyLower)

/-! ### Supporting lemmas -/

theorem listLe_iff (as : List Char) : ∀ bs, listLe as bs = true ↔ as ≤ bs := by
  induction as with
  | nil =>
    intro bs
    exact iff_of_true rfl List.nil_le
  | cons a as ih =>
    intro bs
    cases bs with
    | nil =>
      refine iff_of_false (by simp [listLe]) fun h => ?_
      exact absurd (lt_of_lt_of_le (List.nil_lt_cons a as) h) (lt_irrefl _)
    | cons b bs =>
      by_cases hab : a = b
      · subst hab
        rw [listLe, if_pos rfl, ih bs]
        constructor
        · intro h
          rw [← not_lt] at h ⊢
          intro hlt
          exact h (List.Lex.cons_iff.mp hlt)
        · intro h
          rw [← not_lt] at h ⊢
          intro hlt
          exact h (List.Lex.cons hlt)
      · rw [listLe, if_neg hab, decide_eq_true_iff]
        constructor
        · intro hlt
          rw [← not_lt]
          intro hlex
          cases hlex with
          | cons h => exact hab rfl
          | rel h => exact absurd hlt (asymm h)
        · intro hle
          rw [← not_lt] at hle
          rcases lt_trichotomy a b with h1 | h1 | h1
          · exact h1
          · exact absurd h1 hab
          · exact absurd (List.Lex.rel h1) hle

theorem strLe_iff (a b : String) : strLe a b = true ↔ a ≤ b := by
  rw [String.le_iff_toList_le]
  exact listLe_iff a.data b.data

theorem mem_pySort {l : List String} {s : String} : s ∈ pySort l ↔ s ∈ l :=
  List.mem_insertionSort _

theorem sorted_pySort (l : List String) : (pySort l).Sorted (· ≤ ·) := by
  have h : (pySort l).Sorted (fun a b => strLe a b = true) := by
    letI : IsTotal String (fun a b => strLe a b = true) := ⟨fun a b => by
      rcases le_total a b with h | h
      · exact Or.inl ((strLe_iff a b).mpr h)
      · exact Or.inr ((strLe_iff b a).mpr h)⟩
    letI : IsTrans String (fun a b => strLe a b = true) := ⟨fun a b c hab hbc =>
      (strLe_iff a c).mpr (le_trans ((strLe_iff a b).mp hab) ((strLe_iff b c).mp hbc))⟩
    exact List.sorted_insertionSort _ l
  exact h.imp fun hab => (strLe_iff _ _).mp hab

theorem searchWB_nil (lit : List Char) : searchWB lit [] = false := rfl

theorem round2_zero : round2 0 = 0 := by
  rw [round2]
  have h : ⌊(0 : ℚ) * 100 + 1 / 2⌋ = 0 := by
    rw [Int.floor_eq_iff]
    constructor <;> norm_num
  rw [h]
  norm_num

theorem mem_extract_of_found {skill text : String} (hdb : skill ∈ SKILLS_DATABASE)
    (hf : skillFound (normalizeChars (text.data.map Char.toLower)) skill = true) :
    skill ∈ extract_skills text := by
  have htext : text ≠ "" := by
    intro he
    subst he
    rw [show normalizeChars (("" : String).data.map Char.toLower) = [] from rfl] at hf
    simp [skillFound, searchWB_nil] at hf
  rw [extract_skills, if_neg htext]
  exact mem_pySort.mpr (List.mem_dedup.mpr (List.mem_filter.mpr ⟨hdb, hf⟩))

theorem jd_skill_map_spec {jd : List String} {k : String} (hk : k ∈ jd_set jd) :
    jd_skill_map jd k ∈ jd ∧ pyLower (jd_skill_map jd k) = k := by
  obtain ⟨s, hs, hsk⟩ := List.mem_map.mp (List.mem_dedup.mp hk)
  have hmem : s ∈ jd.filter fun t => pyLower t == k :=
    List.mem_filter.mpr ⟨hs, by simp [hsk]⟩
  have hne : (jd.filter fun t => pyLower t == k) ≠ [] := List.ne_nil_of_mem hmem
  obtain ⟨t, ht⟩ := Option.isSome_iff_exists.mp (List.getLast?_isSome.mpr hne)
  have htmem := List.mem_filter.mp (List.mem_of_getLast?_eq_some ht)
  rw [jd_skill_map, ht, Option.getD_some]
  exact ⟨htmem.1, eq_of_beq htmem.2⟩

theorem mem_matched_skills {r j : List String} {s : String} :
    s ∈ (calculate_match r j).matched_skills ↔
      ∃ k, k ∈ matched_lower r j ∧ jd_skill_map j k = s := by
  show s ∈ pySort ((matched_lower r j).map (jd_skill_map j)) ↔ _
  rw [mem_pySort, List.mem_map]

theorem mem_missing_skills {r j : List String} {s : String} :
    s ∈ (calculate_match r j).missing_skills ↔
      ∃ k, k ∈ missing_lower r j ∧ jd_skill_map j k = s := by
  show s ∈ pySort ((missing_lower r j).map (jd_skill_map j)) ↔ _
  rw [mem_pySort, List.mem_map]

theorem matched_lower_subset {r j : List String} {k : String}
    (hk : k ∈ matched_lower r j) : k ∈ jd_set j :=
  (List.mem_filter.mp hk).1

theorem missing_lower_subset {r j : List String} {k : String}
    (hk : k ∈ missing_lower r j) : k ∈ jd_set j :=
  (List.mem_filter.mp hk).1

theorem jd_set_partition {r j : List String} {k : String} :
    k ∈ jd_set j ↔ k ∈ matched_lower r j ∨ k ∈ missing_lower r j := by
  constructor
  · intro hk
    cases hc : (resume_set r).contains k
    · exact Or.inr (List.mem_filter.mpr ⟨hk, by simp only [Bool.not_eq_true']; exact hc⟩)
    · exact Or.inl (List.mem_filter.mpr ⟨hk, hc⟩)
  · rintro (hk | hk)
    · exact matched_lower_subset hk
    · exact missing_lower_subset hk

theorem matched_missing_disjoint {r j : List String} {k : String}
    (h1 : k ∈ matched_lower r j) (h2 : k ∈ missing_lower r j) : False := by
  have c1 := (List.mem_filter.mp h1).2
  have c2 := (List.mem_filter.mp h2).2
  rw [c1] at c2
  simp at c2

theorem isWordChar_toLower {c : Char} (h : isWordChar c = true) :
    isWordChar c.toLower = true := by
  rw [Char.toLower]
  by_cases h65 : Char.toNat c ≥ 65 ∧ Char.toNat c ≤ 90
  · rw [if_pos h65]
    obtain ⟨h1, h2⟩ := h65
    set n := Char.toNat c with hn
    interval_cases n <;> decide
  · rw [if_neg h65]
    exact h

theorem matchAtWB_nil_lit (cs : List Char) (i : Nat) :
    matchAtWB [] cs i = boundaryAt cs i := by
  simp [matchAtWB]

theorem wordAt_eq_of_getElem {cs : List Char} {i : Nat} {c : Char} (h : cs[i]? = some c) :
    wordAt cs i = isWordChar c := by
  simp only [wordAt, h]

theorem wordAt_cons_succ (c : Char) (cs : List Char) (j : Nat) :
    wordAt (c :: cs) (j + 1) = wordAt cs j := by
  simp only [wordAt, List.getElem?_cons_succ]

theorem wordAt_cons_zero (c : Char) (cs : List Char) :
    wordAt (c :: cs) 0 = isWordChar c := by
  simp only [wordAt, List.getElem?_cons_zero]

theorem prevWordAt_succ (cs : List Char) (i : Nat) :
    prevWordAt cs (i + 1) = wordAt cs i := rfl

theorem boundaryAt_cons {c : Char} (cs : List Char) (hc : isWordChar c = false) (i : Nat) :
    boundaryAt (c :: cs) (i + 1) = boundaryAt cs i := by
  rw [boundaryAt, boundaryAt, prevWordAt_succ, wordAt_cons_succ]
  cases i with
  | zero =>
    rw [wordAt_cons_zero, hc]
    rfl
  | succ j =>
    rw [wordAt_cons_succ, ← prevWordAt_succ]

theorem exists_boundary : ∀ cs : List Char, cs.any isWordChar = true → searchWB [] cs = true := by
  intro cs
  induction cs with
  | nil => intro h; simp at h
  | cons c rest ih =>
    intro h
    cases hc : isWordChar c with
    | true =>
      rw [searchWB, List.any_eq_true]
      refine ⟨0, List.mem_range.mpr (Nat.succ_pos _), ?_⟩
      rw [matchAtWB_nil_lit, boundaryAt, wordAt_cons_zero, hc]
      rfl
    | false =>
      rw [List.any_cons, hc, Bool.false_or] at h
      obtain ⟨i, hi, hmi⟩ := List.any_eq_true.mp (ih h)
      rw [searchWB, List.any_eq_true]
      refine ⟨i + 1, ?_, ?_⟩
      · exact List.mem_range.mpr (by
          have := List.mem_range.mp hi
          simpa [List.length_cons] using Nat.succ_lt_succ this)
      · rw [matchAtWB_nil_lit] at hmi ⊢
        rw [boundaryAt_cons rest hc i]
        exact hmi

theorem any_wordChar_normalized {text : String} (h : text.data.any isWordChar = true) :
    (normalizeChars (text.data.map Char.toLower)).any isWordChar = true := by
  obtain ⟨c, hc, hw⟩ := List.any_eq_true.mp h
  have hwl : isWordChar c.toLower = true := isWordChar_toLower hw
  have hkeep : keepChar c.toLower = true := by
    rw [keepChar, hwl]
    rfl
  rw [List.any_eq_true]
  refine ⟨c.toLower, ?_, hwl⟩
  have h1 : c.toLower ∈ text.data.map Char.toLower := List.mem_map.mpr ⟨c, hc, rfl⟩
  have h2 : (if keepChar c.toLower then c.toLower else ' ') ∈
      (text.data.map Char.toLower).map fun d => if keepChar d then d else ' ' :=
    List.mem_map.mpr ⟨c.toLower, h1, rfl⟩
  rw [hkeep] at h2
  rw [normalizeChars]
  simpa using h2

theorem option_any_exists {o : Option Char} {p : Char → Bool} (h : o.any p = true) :
    ∃ c, o = some c ∧ p c = true := by
  cases o with
  | none => simp [Option.any] at h
  | some c => exact ⟨c, rfl, by simpa [Option.any] using h⟩

theorem searchWB_boundary {lit cs : List Char}
    (hh : lit.head?.any isWordChar = true) (hl : lit.getLast?.any isWordChar = true)
    (h : searchWB lit cs = true) :
    ∃ i, i ≤ cs.length ∧ (cs.drop i).take lit.length = lit ∧ prevWordAt cs i = false ∧
      wordAt cs (i + lit.length) = false := by
  obtain ⟨i, hir, hm⟩ := List.any_eq_true.mp h
  rw [matchAtWB] at hm
  simp only [Bool.and_eq_true] at hm
  obtain ⟨⟨hb1, hocc'⟩, hb2⟩ := hm
  have hocc : (cs.drop i).take lit.length = lit := eq_of_beq hocc'
  obtain ⟨c0, hc0, hc0w⟩ := option_any_exists hh
  have hlit_ne : lit ≠ [] := by
    intro he
    rw [he] at hc0
    exact Option.noConfusion hc0
  have hlen : 0 < lit.length := List.length_pos.mpr hlit_ne
  have hw0 : wordAt cs i = true := by
    have hcs0 : cs[i]? = some c0 := by
      have e1 : lit[0]? = some c0 := by
        rw [← List.head?_eq_getElem?]
        exact hc0
      rw [← hocc, List.getElem?_take_of_lt hlen, List.getElem?_drop, Nat.add_zero] at e1
      exact e1
    rw [wordAt_eq_of_getElem hcs0]
    exact hc0w
  refine ⟨i, Nat.lt_succ_iff.mp (by simpa using List.mem_range.mp hir), hocc, ?_, ?_⟩
  · rw [boundaryAt, hw0] at hb1
    cases hpw : prevWordAt cs i
    · rfl
    · rw [hpw] at hb1
      exact absurd hb1 (by decide)
  · obtain ⟨m, hm'⟩ : ∃ m, lit.length = m + 1 :=
      ⟨lit.length - 1, (Nat.succ_pred_eq_of_pos hlen).symm⟩
    obtain ⟨cl, hcl, hclw⟩ := option_any_exists hl
    have hwprev : prevWordAt cs (i + lit.length) = true := by
      have hcsm : cs[i + m]? = some cl := by
        have e1 : lit[m]? = some cl := by
          rw [List.getLast?_eq_getElem?, hm'] at hcl
          simpa using hcl
        rw [← hocc, List.getElem?_take_of_lt (by omega), List.getElem?_drop] at e1
        exact e1
      rw [hm', show i + (m + 1) = (i + m) + 1 from rfl, prevWordAt_succ,
        wordAt_eq_of_getElem hcsm]
      exact hclw
    rw [boundaryAt, hwprev] at hb2
    cases hw : wordAt cs (i + lit.length)
    · rfl
    · rw [hw] at hb2
      exact absurd hb2 (by decide)

/-! ### Claim theorems -/

/-- Claim C2 evaluated on the code (code bug): in the text
"I know C++ well" the entry "C++" appears as its own whitespace-separated
token, yet `extract_skills` does not return it: the pattern
`\bc\+\+\b` needs a word character right after the final `+`, so only "C"
(and the degenerate ".NET") are extracted. -/
theorem c2_cpp_token_not_extracted :
    extract_skills "I know C++ well" = [".NET", "C"] := by decide

/-- Claim C6 (confirmed): `extract_skills` returns `[]` on the empty string
and on `None`, and `calculate_match` with an empty jd list returns score 0,
empty matched and missing lists and zero counts, for every resume list; all
functions of the model are total by construction. -/
theorem c6_degenerate_inputs :
    extract_skills "" = []
    ∧ extract_skills_opt none = []
    ∧ ∀ resume_skills : List String, calculate_match resume_skills [] =
        { score := 0, matched_skills := [], missing_skills := [],
          total_jd_skills := 0, total_matched := 0 } := by
  refine ⟨rfl, rfl, fun resume_skills => ?_⟩
  show MatchResult.mk (round2 0) [] [] 0 0 = _
  rw [round2_zero]

/-- Witness for C6 at a concrete resume list. -/
theorem c6_degenerate_inputs_witness :
    calculate_match ["Python", "SQL"] [] =
      { score := 0, matched_skills := [], missing_skills := [],
        total_jd_skills := 0, total_matched := 0 } :=
  c6_degenerate_inputs.2.2 ["Python", "SQL"]

/-- Claim C9 (confirmed): `get_skill_suggestions` maps each input skill, in
order, to a "Learn ..." line when the skill is a case-insensitive member of
one of the four fixed categories and to a "Consider ..." line otherwise. -/
theorem c9_suggestions :
    (∀ skills : List String, get_skill_suggestions skills = skills.map suggestionFor)
    ∧ get_skill_suggestions ["React"] = ["Learn React through online courses or projects"]
    ∧ get_skill_suggestions ["Haskell"] = ["Consider gaining experience with Haskell"] := by
  refine ⟨fun skills => ?_, by decide, by decide⟩
  rw [get_skill_suggestions]
  refine congrArg (fun f => List.map f skills) (funext fun skill => ?_)
  cases hf : skill_categories.find? (fun q => q.2.any fun s => pyLower skill == pyLower s) with
  | some q =>
    have hin : inFixedCategory skill = true := by
      rw [inFixedCategory, List.any_eq_true]
      have hq := List.find?_some hf
      exact ⟨q, List.mem_of_find?_eq_some hf, hq⟩
    rw [suggestionFor, if_pos hin]
  | none =>
    have hin : inFixedCategory skill = false := by
      rw [inFixedCategory, List.any_eq_false]
      exact List.find?_eq_none.mp hf
    rw [suggestionFor, if_neg (by simp [hin])]

/-- Witness for C9 at a concrete input list. -/
theorem c9_suggestions_witness :
    get_skill_suggestions ["React", "Haskell"] = ["React", "Haskell"].map suggestionFor :=
  c9_suggestions.1 ["React", "Haskell"]

/-- Claim C8 (confirmed): for every catalog entry containing a `.`, if the
part of the lowercased entry before its first `.` matches the word-boundary
pattern in the normalized text, the full entry is reported by
`extract_skills`; in particular "I use React for frontend" yields both
"React.js" and "React". -/
theorem c8_dotted_base_rule :
    (∀ skill text : String, skill ∈ SKILLS_DATABASE →
      (skill.data.map Char.toLower).contains '.' = true →
      searchWB ((skill.data.map Char.toLower).takeWhile fun c => c != '.')
        (normalizeChars (text.data.map Char.toLower)) = true →
      skill ∈ extract_skills text)
    ∧ "React.js" ∈ extract_skills "I use React for frontend"
    ∧ "React" ∈ extract_skills "I use React for frontend" := by
  refine ⟨fun skill text hdb hdot hbase => ?_, by decide, by decide⟩
  apply mem_extract_of_found hdb
  rw [skillFound, hdot, hbase]
  simp

/-- Witness for C8: the base-token rule applied to "React.js". -/
theorem c8_dotted_base_rule_witness :
    "React.js" ∈ extract_skills "I use React for frontend" :=
  c8_dotted_base_rule.1 "React.js" "I use React for frontend" (by decide) (by decide) (by decide)

/-- Claim C10 (confirmed): since ".NET" has an empty base before its first
`.`, its fallback pattern degenerates to a bare word-boundary test, so every
text containing a word character yields ".NET" among the extracted skills. -/
theorem c10_dotnet_always (text : String) (h : text.data.any isWordChar = true) :
    ".NET" ∈ extract_skills text := by
  apply mem_extract_of_found (by decide)
  have hb : searchWB ((".NET".data.map Char.toLower).takeWhile fun c => c != '.')
      (normalizeChars (text.data.map Char.toLower)) = true := by
    rw [show ((".NET".data.map Char.toLower).takeWhile fun c => c != '.') = [] from rfl]
    exact exists_boundary _ (any_wordChar_normalized h)
  rw [skillFound, hb, show (".NET".data.map Char.toLower).contains '.' = true from rfl]
  simp

/-- Witness for C10 at a concrete text. -/
theorem c10_dotnet_always_witness : ".NET" ∈ extract_skills "hello" :=
  c10_dotnet_always "hello" (by decide)

/-- Counterexample to claim C3 as stated: the catalog entry "C++" is
reported found in "see c++s" although its only occurrence in the normalized
text (position 4, among the 9 candidate positions) is immediately followed
by the word character at position 7 — `\b` after a non-word pattern
character demands a word character, the opposite of what the claim says. -/
theorem c3_counterexample :
    "C++" ∈ extract_skills "see c++s"
    ∧ ((List.range 9).countP fun i =>
        ((normalizeChars (("see c++s").data.map Char.toLower)).drop i).take 3 ==
          "C++".data.map Char.toLower) = 1
    ∧ (((normalizeChars (("see c++s").data.map Char.toLower)).drop 4).take 3 ==
        "C++".data.map Char.toLower) = true
    ∧ wordAt (normalizeChars (("see c++s").data.map Char.toLower)) (4 + 3) = true := by
  refine ⟨by decide, by decide, by decide, by decide⟩

/-- Claim C3 (amended, confirmed): a catalog entry whose lowercasing begins
and ends with a word character matches the word-boundary pattern only at an
occurrence that is neither preceded nor followed by a word character; in
particular "I love JavaScript" does not yield "Java", while
"I use Java daily" yields "Java" and not "JavaScript". -/
theorem c3_word_boundary :
    (∀ skill text : String, skill ∈ SKILLS_DATABASE →
      (skill.data.map Char.toLower).head?.any isWordChar = true →
      (skill.data.map Char.toLower).getLast?.any isWordChar = true →
      searchWB (skill.data.map Char.toLower) (normalizeChars (text.data.map Char.toLower)) = true →
      wbOccursClean (skill.data.map Char.toLower)
        (normalizeChars (text.data.map Char.toLower)) = true)
    ∧ "Java" ∉ extract_skills "I love JavaScript"
    ∧ "Java" ∈ extract_skills "I use Java daily"
    ∧ "JavaScript" ∉ extract_skills "I use Java daily" := by
  refine ⟨fun skill text _ hh hl h => ?_, by decide, by decide, by decide⟩
  obtain ⟨i, hile, hocc, hp, hw⟩ := searchWB_boundary hh hl h
  rw [wbOccursClean, List.any_eq_true]
  refine ⟨i, List.mem_range.mpr (Nat.lt_succ_of_le hile), ?_⟩
  rw [hp, hw, beq_iff_eq.mpr hocc]
  rfl

/-- Witness for C3: the word-boundary pattern finding of "Java" in
"I use Java daily" is a clean occurrence. -/
theorem c3_word_boundary_witness :
    wbOccursClean ("Java".data.map Char.toLower)
      (normalizeChars (("I use Java daily").data.map Char.toLower)) = true :=
  c3_word_boundary.1 "Java" "I use Java daily" (by decide) (by decide) (by decide) (by decide)

/-- Claim C5 (confirmed): the score is 0 for an empty jd list and otherwise
100 times the number of distinct matched lowercase jd skills divided by the
raw length of `jd_skills` (duplicates included), rounded to two decimals;
the duplicate-in-JD example gives total 3, matched 1, score 33.33. -/
theorem c5_score_arithmetic :
    (∀ resume_skills jd_skills : List String,
      (calculate_match resume_skills jd_skills).score =
        if jd_skills.length = 0 then 0
        else round2 (100 * (distinctMatchedCount resume_skills jd_skills : ℚ) /
          (jd_skills.length : ℚ)))
    ∧ (calculate_match ["Python"] ["Python", "Python", "SQL"]).total_jd_skills = 3
    ∧ (calculate_match ["Python"] ["Python", "Python", "SQL"]).total_matched = 1
    ∧ (calculate_match ["Python"] ["Python", "Python", "SQL"]).score = 3333 / 100 := by
  refine ⟨fun r j => ?_, by decide, by decide, ?_⟩
  · show round2 (if j.length = 0 then 0
        else ((matched_lower r j).length : ℚ) / (j.length : ℚ) * 100) = _
    have hcnt : (matched_lower r j).length = distinctMatchedCount r j := by
      rw [matched_lower, distinctMatchedCount, List.countP_eq_length_filter]
      congr 1
      apply List.filter_congr
      intro k hk
      show (resume_set r).contains k = decide (k ∈ r.map pyLower)
      cases hc : (resume_set r).contains k
      · have : k ∉ resume_set r := by simpa using hc
        have : k ∉ r.map pyLower := fun hm => this (List.mem_dedup.mpr hm)
        simp [this]
      · have : k ∈ resume_set r := by simpa using hc
        have : k ∈ r.map pyLower := List.mem_dedup.mp this
        simp [this]
    rw [hcnt]
    by_cases hj : j.length = 0
    · rw [if_pos hj, if_pos hj, round2_zero]
    · rw [if_neg hj, if_neg hj]
      exact congrArg round2 (by ring)
  · show round2 (if (["Python", "Python", "SQL"] : List String).length = 0 then 0
        else ((matched_lower ["Python"] ["Python", "Python", "SQL"]).length : ℚ) /
          ((["Python", "Python", "SQL"] : List String).length : ℚ) * 100) = 3333 / 100
    have h1 : (matched_lower ["Python"] ["Python", "Python", "SQL"]).length = 1 := by decide
    rw [h1, if_neg (by decide), round2]
    norm_num [Int.floor_eq_iff]

/-- Witness for C5 at a concrete input pair. -/
theorem c5_score_arithmetic_witness :
    (calculate_match [] ["SQL"]).score =
      if (["SQL"] : List String).length = 0 then 0
      else round2 (100 * (distinctMatchedCount [] ["SQL"] : ℚ) /
        (((["SQL"] : List String).length : ℚ))) :=
  c5_score_arithmetic.1 [] ["SQL"]

/-- Claim C7 (confirmed): every output string of `calculate_match` is the
last jd input spelling with its lowercase key (jd casing, last-seen wins),
and both output lists are sorted in code-point order; the example with
jd = ["python", "SQL"] returns matched ["python"] and missing ["SQL"]. -/
theorem c7_casing_and_order :
    (∀ resume_skills jd_skills : List String,
      (∀ s ∈ (calculate_match resume_skills jd_skills).matched_skills,
        s = jd_skill_map jd_skills (pyLower s))
      ∧ (∀ s ∈ (calculate_match resume_skills jd_skills).missing_skills,
        s = jd_skill_map jd_skills (pyLower s))
      ∧ List.Sorted (· ≤ ·) (calculate_match resume_skills jd_skills).matched_skills
      ∧ List.Sorted (· ≤ ·) (calculate_match resume_skills jd_skills).missing_skills)
    ∧ (calculate_match ["Python"] ["python", "SQL"]).matched_skills = ["python"]
    ∧ (calculate_match ["Python"] ["python", "SQL"]).missing_skills = ["SQL"] := by
  refine ⟨fun r j => ⟨?_, ?_, sorted_pySort _, sorted_pySort _⟩, by decide, by decide⟩
  · intro s hs
    obtain ⟨k, hk, rfl⟩ := mem_matched_skills.mp hs
    rw [(jd_skill_map_spec (matched_lower_subset hk)).2]
  · intro s hs
    obtain ⟨k, hk, rfl⟩ := mem_missing_skills.mp hs
    rw [(jd_skill_map_spec (missing_lower_subset hk)).2]

/-- Witness for C7: the matched skill of the example carries the jd casing. -/
theorem c7_casing_and_order_witness :
    ("python" : String) = jd_skill_map ["python", "SQL"] (pyLower "python") :=
  (c7_casing_and_order.1 ["Python"] ["python", "SQL"]).1 "python" (by decide)

/-- Counterexample to claim C1 as stated: the catalog contains the entry
"DynamoDB" twice and the entry "GraphQL" twice, so two entries do normalize
to the same lowercase key and the derived lookup has fewer keys than the
catalog has entries. -/
theorem c1_counterexample :
    2 ≤ SKILLS_DATABASE.count "DynamoDB"
    ∧ 2 ≤ SKILLS_DATABASE.count "GraphQL"
    ∧ (SKILLS_DATABASE.map pyLower).dedup.length < SKILLS_DATABASE.length := by
  refine ⟨by decide, by decide, by decide⟩

/-- Claim C1 (amended, confirmed): any two catalog entries that normalize to
the same lowercase key are the same string (the only collisions are the
exact duplicates), so the derived lowercase lookup still maps the key of
every entry back to that entry and loses no information. -/
theorem c1_unique_keys :
    List.Pairwise (fun a b => pyLower a = pyLower b → a = b) SKILLS_DATABASE
    ∧ ∀ s ∈ SKILLS_DATABASE, SKILLS_LOOKUP_get (pyLower s) = some s := by
  have hpw : List.Pairwise (fun a b => pyLower a = pyLower b → a = b) SKILLS_DATABASE := by
    decide
  refine ⟨hpw, fun s hs => ?_⟩
  have hsym : Symmetric fun a b : String => pyLower a = pyLower b → a = b := by
    intro a b hab h
    exact (hab h.symm).symm
  have hall : ∀ a ∈ SKILLS_DATABASE, ∀ b ∈ SKILLS_DATABASE, pyLower a = pyLower b → a = b := by
    intro a ha b hb hab
    by_cases heq : a = b
    · exact heq
    · exact hpw.forall hsym ha hb heq hab
  have hmem : s ∈ SKILLS_DATABASE.filter fun t => pyLower t == pyLower s :=
    List.mem_filter.mpr ⟨hs, by simp⟩
  obtain ⟨t, ht⟩ := Option.isSome_iff_exists.mp
    (List.getLast?_isSome.mpr (List.ne_nil_of_mem hmem))
  have htf := List.mem_filter.mp (List.mem_of_getLast?_eq_some ht)
  rw [SKILLS_LOOKUP_get, ht]
  exact congrArg some (hall t htf.1 s hs (eq_of_beq htf.2))

/-- Witness for C1: the lookup returns the entry "DynamoDB" at its own key. -/
theorem c1_unique_keys_witness :
    SKILLS_LOOKUP_get (pyLower "DynamoDB") = some "DynamoDB" :=
  c1_unique_keys.2 "DynamoDB" (by decide)

/-- Counterexample to claim C4 as stated: with jd = ["SQL"] the matched
output keeps the original casing "SQL", so the union of the raw output sets
is not the set of lowercased jd skills. -/
theorem c4_counterexample :
    ¬ ((calculate_match ["SQL"] ["SQL"]).matched_skills.toFinset ∪
        (calculate_match ["SQL"] ["SQL"]).missing_skills.toFinset =
      ((["SQL"] : List String).map pyLower).toFinset) := by
  intro h
  have h1 : ("SQL" : String) ∈ (calculate_match ["SQL"] ["SQL"]).matched_skills := by decide
  have h2 : ("SQL" : String) ∈ ((["SQL"] : List String).map pyLower).toFinset := by
    rw [← h]
    exact Finset.mem_union_left _ (List.mem_toFinset.mpr h1)
  have h3 : ("SQL" : String) ∈ (["SQL"] : List String).map pyLower :=
    List.mem_toFinset.mp h2
  exact absurd h3 (by decide)

/-- Claim C4 (amended, confirmed): after lowercasing, the union of the two
output lists of `calculate_match` is exactly the set of lowercased jd
skills, and the two output lists are disjoint (every jd skill lands in
exactly one of them). -/
theorem c4_partition :
    ∀ resume_skills jd_skills : List String,
      (((calculate_match resume_skills jd_skills).matched_skills.map pyLower).toFinset ∪
          ((calculate_match resume_skills jd_skills).missing_skills.map pyLower).toFinset =
        (jd_skills.map pyLower).toFinset)
      ∧ ∀ s, s ∈ (calculate_match resume_skills jd_skills).matched_skills →
          s ∉ (calculate_match resume_skills jd_skills).missing_skills := by
  intro r j
  constructor
  · apply Finset.ext
    intro k
    simp only [Finset.mem_union, List.mem_toFinset, List.mem_map]
    constructor
    · rintro (⟨s, hs, rfl⟩ | ⟨s, hs, rfl⟩)
      · obtain ⟨k', hk', rfl⟩ := mem_matched_skills.mp hs
        rw [(jd_skill_map_spec (matched_lower_subset hk')).2]
        exact List.mem_map.mp (List.mem_dedup.mp (matched_lower_subset hk'))
      · obtain ⟨k', hk', rfl⟩ := mem_missing_skills.mp hs
        rw [(jd_skill_map_spec (missing_lower_subset hk')).2]
        exact List.mem_map.mp (List.mem_dedup.mp (missing_lower_subset hk'))
    · rintro ⟨s, hs, rfl⟩
      have hk : pyLower s ∈ jd_set j := List.mem_dedup.mpr (List.mem_map.mpr ⟨s, hs, rfl⟩)
      rcases jd_set_partition.mp hk with hm | hm
      · exact Or.inl ⟨jd_skill_map j (pyLower s),
          mem_matched_skills.mpr ⟨pyLower s, hm, rfl⟩, (jd_skill_map_spec hk).2⟩
      · exact Or.inr ⟨jd_skill_map j (pyLower s),
          mem_missing_skills.mpr ⟨pyLower s, hm, rfl⟩, (jd_skill_map_spec hk).2⟩
  · intro s hsm hsmis
    obtain ⟨k1, hk1, he1⟩ := mem_matched_skills.mp hsm
    obtain ⟨k2, hk2, he2⟩ := mem_missing_skills.mp hsmis
    have e1 : pyLower s = k1 := by
      rw [← he1]
      exact (jd_skill_map_spec (matched_lower_subset hk1)).2
    have e2 : pyLower s = k2 := by
      rw [← he2]
      exact (jd_skill_map_spec (missing_lower_subset hk2)).2
    exact matched_missing_disjoint (e1 ▸ hk1) (e2 ▸ hk2)

/-- Witness for C4: the example jd skill "python" is matched and therefore
not among the missing skills. -/
theorem c4_partition_witness :
    ("python" : String) ∉ (calculate_match ["Python"] ["python", "SQL"]).missing_skills :=
  (c4_partition ["Python"] ["python", "SQL"]).2 "python" (by decide)

end ATSResume
